import Mathlib

/-!
Verification of the SMT-LIB benchmark scrambler (`scrambler.cpp`).

This file gives a shallow embedding of the scrambler's post-parse data
model and transformation pipeline — the 48-bit linear congruential
generator, the two symbol registries, the command/term tree, the
shuffle/sort/rank passes, the sorted printer (`print_node_sorted` /
`print_ranked`), the unsat-core filter, and the `-core` file parser —
and proves properties of these definitions.

Machine integers are modelled as `Nat` with explicit reduction `% 2 ^ 64`
where overflow matters.  The global mutable state of the C++ program
(registries, the annotation counter, the PRNG seed) is threaded
explicitly.  C++ node pointers only matter as sorting tie-breakers in
`sort_declarations`; they are modelled by pairing each command with an
explicit numeric address.
-/

namespace Scrambler

/-- The parse-tree node of the scrambler: a symbol, an `is_name` flag
(true iff the occurrence references a declared identifier), a
serialization hint `needs_parens`, and an ordered list of children
(exclusively owned, so the structure is a strict tree). -/
inductive Node where
  | mk (symbol : String) (is_name : Bool) (needs_parens : Bool) (children : List Node)

/-- Symbol of a node. -/
def Node.symbol : Node → String
  | .mk s _ _ _ => s

/-- `is_name` flag of a node. -/
def Node.isName : Node → Bool
  | .mk _ b _ _ => b

/-- `needs_parens` flag of a node. -/
def Node.needsParens : Node → Bool
  | .mk _ _ b _ => b

/-- Children of a node. -/
def Node.children : Node → List Node
  | .mk _ _ _ cs => cs

instance : Inhabited Node := ⟨.mk "" false false []⟩

/-! ### Pseudo-random number generator

Source: lines 57-71 of `scrambler.cpp`.

```cpp
uint64_t seed;
const uint64_t a = 25214903917ULL;
const uint64_t c = 11U;
const uint64_t mask = ~(2ULL << 48);
void set_seed(int s) { seed = s; }
size_t next_rand_int(size_t upper_bound) {
    seed = ((seed * a) + c) & mask;
    return (size_t)(seed >> 16U) % upper_bound;
}
```

Note that `2ULL << 48` is `2 ^ 49`, so `mask = ~(2ULL << 48)` is the
64-bit value with every bit set except bit 49. -/

/-- LCG multiplier `a = 25214903917`. -/
def rng_a : Nat := 25214903917

/-- LCG increment `c = 11`. -/
def rng_c : Nat := 11

/-- The source's `mask = ~(2ULL << 48)`: all 64 bits set except bit 49. -/
def rng_mask : Nat := 2 ^ 64 - 1 - 2 ^ 49

/-- `set_seed(s)`: initialize the generator state to `s`. -/
def set_seed (s : Nat) : Nat := s

/-- `next_rand_int(upper_bound)`: advance the state once
(`seed = ((seed * a) + c) & mask`, in 64-bit arithmetic) and return
`(seed >> 16) % upper_bound`.  Returns the drawn value together with the
new state. -/
def next_rand_int (seed : Nat) (upper_bound : Nat) : Nat × Nat :=
  let seed' := ((seed * rng_a + rng_c) % 2 ^ 64) &&& rng_mask
  ((seed' >>> 16) % upper_bound, seed')

/-! ### Symbol registries

Source: lines 168-213 (`name_ids`, `unquote`, `set_new_name`,
`get_name_id`) and 691-713 (`name_ids_sorted`, `set_new_name_sorted`,
`get_name_id_sorted`).  The `unordered_map<string, uint64_t>` is
modelled as an association list in insertion order together with the
`next_name_id` counter. -/

/-- One registry instance: the association map plus the next free id.
The source keeps these as a global `Name_ID_Map` and a global counter
initialized to 1. -/
structure Registry where
  map : List (String × Nat)
  next : Nat
deriving DecidableEq

/-- The initial registry state: empty map, `next_name_id = 1`. -/
def regInit : Registry := ⟨[], 1⟩

/-- `unquote`: remove matching outer `|...|` quotes.  Strings not
starting with `|`, or of length 1, or not ending with `|`, are returned
unchanged. -/
def unquote (n : String) : String :=
  if n.isEmpty || n.front ≠ '|' then n
  else if n.length > 1 && n.back = '|' then ((n.drop 1).dropRight 1)
  else n

/-- `set_new_name(n)` (lines 196-204): unquote, then if the name is not
in the map, bind it to the next id and increment the counter. -/
def set_new_name (r : Registry) (n : String) : Registry :=
  let u := unquote n
  if (r.map.lookup u).isSome then r
  else { map := r.map ++ [(u, r.next)], next := r.next + 1 }

/-- `get_name_id(n)` (lines 208-213): unquote, then `name_ids[n]`.
C++ `operator[]` on a missing key default-inserts the value 0, so the
lookup both returns a value and may extend the map. -/
def get_name_id (r : Registry) (n : String) : Nat × Registry :=
  let u := unquote n
  match r.map.lookup u with
  | some v => (v, r)
  | none => (0, { r with map := r.map ++ [(u, 0)] })

/-- `set_new_name_sorted(n)` (lines 697-705): same algorithm as
`set_new_name`, acting on the independent `name_ids_sorted` registry. -/
def set_new_name_sorted (r : Registry) (n : String) : Registry :=
  let u := unquote n
  if (r.map.lookup u).isSome then r
  else { map := r.map ++ [(u, r.next)], next := r.next + 1 }

/-- `get_name_id_sorted(n)` (lines 708-713): same algorithm as
`get_name_id`, acting on the `name_ids_sorted` registry. -/
def get_name_id_sorted (r : Registry) (n : String) : Nat × Registry :=
  let u := unquote n
  match r.map.lookup u with
  | some v => (v, r)
  | none => (0, { r with map := r.map ++ [(u, 0)] })

/-- The pure value view of a registry: the id a lookup would return
(0 for unregistered symbols), on already-unquoted keys. -/
def regVal (r : Registry) (u : String) : Nat :=
  (r.map.lookup u).getD 0

/-! ### Shuffling

Source: lines 330-343 (the Fisher-Yates overload of `shuffle_list`) and
lines 763-777 (the ranks overload). -/

/-- `std::swap((*v)[i], (*v)[j])`: exchange two positions of a list.
The C++ code only ever swaps in-range positions; out-of-range indices
leave the list unchanged here. -/
def listSwap (v : List α) (i j : Nat) : List α :=
  match v[i]?, v[j]? with
  | some x, some y => (v.set i y).set j x
  | _, _ => v

theorem listSwap_length (v : List α) (i j : Nat) :
    (listSwap v i j).length = v.length := by
  unfold listSwap
  cases v[i]? <;> cases v[j]? <;> simp

/-- The write-back loop `for i: v[start+i] = temp[i]` shared by both
the ranks shuffle and `sort_declarations`. -/
def writeRange (v : List α) (start : Nat) : List α → List α
  | [] => v
  | x :: rest => writeRange (v.set start x) (start + 1) rest

theorem writeRange_length (temp : List α) (v : List α) (start : Nat) :
    (writeRange v start temp).length = v.length := by
  induction temp generalizing v start with
  | nil => rfl
  | cons x rest ih => simp [writeRange, ih]

theorem writeRange_getElem?_outside (temp : List α) (v : List α) (start k : Nat)
    (h : k < start ∨ start + temp.length ≤ k) :
    (writeRange v start temp)[k]? = v[k]? := by
  induction temp generalizing v start with
  | nil => rfl
  | cons x rest ih =>
    rw [writeRange, ih]
    · apply List.getElem?_set_ne
      rcases h with h | h
      · omega
      · simp at h; omega
    · rcases h with h | h
      · omega
      · simp at h; omega

theorem writeRange_getElem?_inside (temp : List α) (v : List α) (start m : Nat)
    (hm : m < temp.length) (hv : start + m < v.length) :
    (writeRange v start temp)[start + m]? = temp[m]? := by
  induction temp generalizing v start m with
  | nil => simp at hm
  | cons x rest ih =>
    cases m with
    | zero =>
      rw [writeRange, writeRange_getElem?_outside rest _ _ _ (Or.inl (by omega))]
      simp only [Nat.add_zero]
      rw [List.getElem?_set_self (by omega)]
      simp
    | succ m =>
      rw [writeRange]
      have := ih (v.set start x) (start + 1) m (by simpa using hm) (by simp; omega)
      rw [show start + (m + 1) = start + 1 + m by omega]
      rw [this]
      simp

/-- The ranks overload of `shuffle_list` (lines 763-777): sort the
window indices `0..n-1` by their rank values, then write the window back
in that order.  `std::sort`'s comparator is `ranks[i] < ranks[j]`; rank
values (C++ `float`) are modelled as rationals. -/
def shuffle_list_ranks [Inhabited α] (v : List α) (start stop : Nat) (ranks : List ℚ) : List α :=
  let n := stop - start
  let indices := List.insertionSort (fun i j => ranks.getD i 0 < ranks.getD j 0) (List.range n)
  let temp := indices.map (fun i => v.getD (start + i) default)
  writeRange v start temp

theorem shuffle_list_ranks_length [Inhabited α] (v : List α) (start stop : Nat)
    (ranks : List ℚ) : (shuffle_list_ranks v start stop ranks).length = v.length := by
  unfold shuffle_list_ranks
  rw [writeRange_length]

/-- The inner Fisher-Yates loop of `shuffle_list` (lines 334-336):
`for (i = n-1; i > 0; --i) swap(v[i+start], v[next_rand_int(i+1)+start])`.
The argument below is the current value of the loop counter. -/
def fyAux (seed : Nat) (v : List α) (start : Nat) : Nat → List α × Nat
  | 0 => (v, seed)
  | i + 1 =>
    let d := next_rand_int seed (i + 2)
    fyAux d.2 (listSwap v (i + 1 + start) (d.1 + start)) start i

/-- `shuffle_list(v, start, end)` (lines 330-338): Fisher-Yates over the
window `[start, stop)`; a no-op when scrambling is globally disabled.
Also returns the final generator state.  (The source's `size_t n - 1`
underflows for an empty window; callers always pass a non-empty one.) -/
def shuffle_list (no_scramble : Bool) (seed : Nat) (v : List α) (start stop : Nat) :
    List α × Nat :=
  if no_scramble then (v, seed)
  else
    let n := stop - start
    fyAux seed v start (n - 1)

/-! ### Substring classification used by `print_ranked` -/

/-- `std::string::find(pat) != npos`: substring containment. -/
def strContains (s pat : String) : Bool :=
  (List.range (s.data.length + 1)).any (fun i => pat.data.isPrefixOf (s.data.drop i))

/-- A command belongs to a declaration/definition run iff its symbol
contains `"declare"` or `"define"` (lines 904, 907, 913). -/
def isDeclDef (n : Node) : Bool :=
  strContains n.symbol "declare" || strContains n.symbol "define"

/-! ### The first-occurrence numbering pass and the declaration sort

Source: lines 716-728 (`assign_num`), 731-744 (`find_var`),
747-759 (`sort_declarations`). -/

/-- The test applied to direct children in `assign_num` and `find_var`:
non-empty symbol, `is_name` set, and not the equality symbol. -/
def isNameChild (c : Node) : Bool :=
  !c.symbol.isEmpty && c.isName && c.symbol ≠ "="

mutual

/-- `assign_num(n)` (lines 716-728): register (via
`set_new_name_sorted`) every direct child that is a name reference, then
recurse into the children — skipping child 0 when the node's own symbol
is empty, exactly as the source's `if (i > 0 || !n->symbol.empty())`
guard does. -/
def assign_num (r : Registry) : Node → Registry
  | .mk sym _ _ cs =>
    let r1 := cs.foldl (fun acc c => if isNameChild c then set_new_name_sorted acc c.symbol else acc) r
    assign_num_kids r1 sym.isEmpty 0 cs

/-- The second loop of `assign_num`: recurse into `children[i]` whenever
`i > 0` or the parent's symbol is non-empty. -/
def assign_num_kids (r : Registry) (symEmpty : Bool) (i : Nat) : List Node → Registry
  | [] => r
  | c :: rest =>
    let r' := if i > 0 || !symEmpty then assign_num r c else r
    assign_num_kids r' symEmpty (i + 1) rest

end

mutual

/-- `find_var(n)` (lines 731-744).  First scan the direct children for a
name reference and return its registered id; otherwise the second loop
`for i: if (i > 0 || !symbol.empty()) return find_var(children[i])`
returns from its *first* executed iteration — `find_var_kids` below —
i.e. it recurses into child 0 when the symbol is non-empty, into child 1
when the symbol is empty, and into nothing otherwise.  It is stateful
because `get_name_id_sorted` default-inserts missing keys. -/
def find_var (r : Registry) : Node → Nat × Registry
  | .mk sym _ _ cs =>
    match cs.find? isNameChild with
    | some c => get_name_id_sorted r c.symbol
    | none => find_var_kids r sym.isEmpty cs

/-- The second loop of `find_var`: the single recursive descent taken by
its first executed iteration. -/
def find_var_kids (r : Registry) (symEmpty : Bool) : List Node → Nat × Registry
  | [] => (0, r)
  | c0 :: rest =>
    if symEmpty then
      match rest with
      | c1 :: _ => find_var r c1
      | [] => (0, r)
    else find_var r c0

end

mutual

/-- The pure value of `find_var`, as a function of the registry's value
view only (see `find_var_props`). -/
def find_var_val (f : String → Nat) : Node → Nat
  | .mk sym _ _ cs =>
    match cs.find? isNameChild with
    | some c => f (unquote c.symbol)
    | none => find_var_val_kids f sym.isEmpty cs

/-- The pure value of `find_var_kids`. -/
def find_var_val_kids (f : String → Nat) (symEmpty : Bool) : List Node → Nat
  | [] => 0
  | c0 :: rest =>
    if symEmpty then
      match rest with
      | c1 :: _ => find_var_val f c1
      | [] => 0
    else find_var_val f c0

end

/-- The `combined_data` construction of `sort_declarations`
(lines 748-752): pair each window element with its `find_var` tag,
threading the registry (mutated by `get_name_id_sorted`'s
default-insertions) left to right. -/
def tagWindow (r : Registry) (window : List (Nat × Node)) :
    List (Nat × Nat × Node) × Registry :=
  window.foldl (fun acc p =>
    let t := find_var acc.2 p.2
    (acc.1 ++ [(t.1, p)], t.2)) ([], r)

/-- The `std::pair<uint64_t, node*>` comparison used by `std::sort` in
`sort_declarations`: lexicographic on the tag, then on the node pointer
(modelled by the explicit address). -/
def pairLess (x y : Nat × Nat × Node) : Prop :=
  x.1 < y.1 ∨ (x.1 = y.1 ∧ x.2.1 < y.2.1)

instance : DecidableRel pairLess :=
  fun x y => inferInstanceAs (Decidable (x.1 < y.1 ∨ (x.1 = y.1 ∧ x.2.1 < y.2.1)))

/-- `sort_declarations(v, start, end)` (lines 747-759): tag the window
(`tagWindow`), sort the tagged pairs by `pairLess`, and write the window
back.  (The source writes the result into the global `commands`, which
is the vector `v` aliases at the only call site.) -/
def sort_declarations (r : Registry) (v : List (Nat × Node)) (start stop : Nat) :
    List (Nat × Node) × Registry :=
  let tagged := tagWindow r ((v.drop start).take (stop - start))
  let sorted := List.insertionSort pairLess tagged.1
  (writeRange v start (sorted.map (fun x => x.2)), tagged.2)

theorem sort_declarations_length (r : Registry) (v : List (Nat × Node)) (start stop : Nat) :
    (sort_declarations r v start stop).1.length = v.length := by
  unfold sort_declarations
  rw [writeRange_length]

/-! ### The sorted printer

Source: lines 80 (`annotation_mode`), 597-612 (`make_name`,
`make_annotation_name`), 614-621 (`keep_annotation`), 798-861
(`print_node_sorted`, `print_command_sorted`). -/

/-- The source's `annotation_mode` enum: `none` strips all term
annotations, `pattern` keeps only `:pattern` ones, `all` keeps all. -/
inductive AnnotMode where
  | none
  | pattern
  | all
deriving DecidableEq

/-- Flags that gate printing: `no_scramble`, `gen_ucore`, `gen_mval`,
`gen_proof` (globals at lines 87-116). -/
structure Flags where
  no_scramble : Bool
  gen_ucore : Bool
  gen_mval : Bool
  gen_proof : Bool
deriving DecidableEq

/-- The global state mutated by the `print_ranked` pipeline: the
first-occurrence registry `name_ids_sorted` and the static counter of
`make_annotation_name` (initially 1). -/
structure PRState where
  reg : Registry
  counter : Nat
deriving DecidableEq

/-- `make_name(name_id)`: the uniform name `x<id>`. -/
def make_name (name_id : Nat) : String :=
  "x" ++ toString name_id

/-- `make_annotation_name()` (lines 605-612): `smtcomp<n>` for the
current counter value; the caller increments the counter. -/
def make_annot_name (n : Nat) : String :=
  "smtcomp" ++ toString n

/-- `keep_annotation(n, keep_annotations)` (lines 614-621). -/
def keep_annot (n : Node) (m : AnnotMode) : Bool :=
  match m with
  | .none => false
  | .all => true
  | .pattern =>
    match n.children with
    | [_, c1] => c1.symbol = ":pattern"
    | _ => false

mutual

/-- `print_node_sorted(out, n, keep_annotations)` (lines 798-853),
returning the emitted text and the updated state.  An annotation node
(`!`) whose annotation is dropped is replaced by its first child (the
source indexes `children[0]`; annotation nodes built by the parser
always have one). -/
def print_node_sorted (fl : Flags) (m : AnnotMode) (st : PRState) : Node → String × PRState
  | .mk sym isn np cs =>
    if sym = "!" && !(keep_annot (.mk sym isn np cs) m) then
      match cs with
      | c :: _ => print_node_sorted fl m st c
      | [] => ("", st)
    else
      let sOpen := if np then "(" else ""
      let (sSym, st1) :=
        if sym.isEmpty then ("", st)
        else if fl.no_scramble || !isn then (sym, st)
        else
          let g := get_name_id_sorted st.reg sym
          if g.1 = 0 then (sym, { st with reg := g.2 })
          else (make_name g.1, { st with reg := g.2 })
      let (name, st2) :=
        if fl.gen_ucore && sym = "assert" then
          (make_annot_name st1.counter, { st1 with counter := st1.counter + 1 })
        else ("", st1)
      let sBang := if !name.isEmpty then " (!" else ""
      let p := print_kids_sorted fl m st2 sym.isEmpty 0 cs
      let sNamed := if !name.isEmpty then " :named " ++ name ++ ")" else ""
      let sClose := if np then ")" else ""
      let sCheck :=
        if sym = "check-sat" then
          (if fl.gen_ucore then "\n(get-unsat-core)" else "")
            ++ (if fl.gen_mval then "\n(get-model)" else "")
            ++ (if fl.gen_proof then "\n(get-proof)" else "")
        else ""
      (sOpen ++ sSym ++ sBang ++ p.1 ++ sNamed ++ sClose ++ sCheck, p.2)

/-- The child loop of `print_node_sorted`: a space is emitted before
`children[i]` whenever `i > 0` or the parent's symbol is non-empty. -/
def print_kids_sorted (fl : Flags) (m : AnnotMode) (st : PRState) (symEmpty : Bool)
    (i : Nat) : List Node → String × PRState
  | [] => ("", st)
  | c :: rest =>
    let sp := if i > 0 || !symEmpty then " " else ""
    let p1 := print_node_sorted fl m st c
    let p2 := print_kids_sorted fl m p1.2 symEmpty (i + 1) rest
    (sp ++ p1.1 ++ p2.1, p2.2)

end

/-- `print_command_sorted` (lines 856-861): a printed node followed by a
line terminator. -/
def print_command_sorted (fl : Flags) (m : AnnotMode) (st : PRState) (n : Node) :
    String × PRState :=
  let p := print_node_sorted fl m st n
  (p.1 ++ "\n", p.2)

/-- The final drain of `print_ranked` (lines 922-926): serialize every
command in order. -/
def print_all (fl : Flags) (m : AnnotMode) (st : PRState) (cmds : List (Nat × Node)) :
    String × PRState :=
  cmds.foldl (fun acc c =>
    let p := print_command_sorted fl m acc.2 c.2
    (acc.1 ++ p.1, p.2)) ("", st)

/-! ### `print_ranked`

Source: lines 780-795 (`get_ranks`) and 865-927 (`print_ranked`).
The rank file is modelled as `Option (List ℚ)`: `none` for a file that
cannot be opened, otherwise the parsed float values in file order
(`get_ranks` reopens the file from the start on every call). -/

/-- `get_ranks(size)` (lines 780-795): the first `size` values of the
rank file, or all zeros when the file is missing or holds fewer than
`size` values. -/
def get_ranks (file : Option (List ℚ)) (size : Nat) : List ℚ :=
  match file with
  | Option.none => List.replicate size 0
  | Option.some content =>
    if size ≤ content.length then content.take size
    else List.replicate size 0

theorem get_ranks_length (file : Option (List ℚ)) (size : Nat) :
    (get_ranks file size).length = size := by
  unfold get_ranks
  cases file with
  | none => simp
  | some content =>
    by_cases h : size ≤ content.length <;> simp [h]

/-- The inner `while` of the assertion scan (line 877): advance `j`
while it points at an `assert` command. -/
def run_end_assert (cmds : List (Nat × Node)) (j : Nat) : Nat :=
  if h : j < cmds.length then
    if cmds[j].2.symbol = "assert" then run_end_assert cmds (j + 1) else j
  else j
termination_by cmds.length - j

theorem run_end_assert_ge (cmds : List (Nat × Node)) (j : Nat) :
    j ≤ run_end_assert cmds j := by
  unfold run_end_assert
  split
  · split
    · have h := run_end_assert_ge cmds (j + 1); omega
    · exact Nat.le_refl j
  · exact Nat.le_refl j
termination_by cmds.length - j

/-- The inner `while` of the declaration scan (line 907). -/
def run_end_decl (cmds : List (Nat × Node)) (j : Nat) : Nat :=
  if h : j < cmds.length then
    if isDeclDef cmds[j].2 then run_end_decl cmds (j + 1) else j
  else j
termination_by cmds.length - j

theorem run_end_decl_ge (cmds : List (Nat × Node)) (j : Nat) :
    j ≤ run_end_decl cmds j := by
  unfold run_end_decl
  split
  · split
    · have h := run_end_decl_ge cmds (j + 1); omega
    · exact Nat.le_refl j
  · exact Nat.le_refl j
termination_by cmds.length - j

/-- The assertion-run scan of `print_ranked` (lines 872-890),
transcribed with its `bool already = false;` declared inside the loop
body exactly as in the source — which makes the
`throw std::invalid_argument("assertions in multiple chunks")` branch
unreachable. -/
def assert_pass (file : Option (List ℚ)) (cmds : List (Nat × Node)) (i : Nat) :
    Except String (List (Nat × Node)) :=
  if h : i < cmds.length then
    let already := false
    if cmds[i].2.symbol = "assert" && !already then
      let j := run_end_assert cmds (i + 1)
      let ranks := get_ranks file (j - i)
      let cmds' := if j - i > 1 then shuffle_list_ranks cmds i j ranks else cmds
      assert_pass file cmds' j
    else if cmds[i].2.symbol = "assert" && already then
      .error "assertions in multiple chunks"
    else
      assert_pass file cmds (i + 1)
  else .ok cmds
termination_by cmds.length - i
decreasing_by
  · have h1 := run_end_assert_ge cmds (i + 1)
    split
    · rw [shuffle_list_ranks_length]; omega
    · omega
  · omega

/-- The declaration-run scan of `print_ranked` (lines 902-919), with the
same dead `already` flag as the assertion scan; threads the
first-occurrence registry mutated by `find_var`. -/
def decl_pass (r : Registry) (cmds : List (Nat × Node)) (i : Nat) :
    Except String (List (Nat × Node) × Registry) :=
  if h : i < cmds.length then
    let already := false
    if isDeclDef cmds[i].2 && !already then
      let j := run_end_decl cmds (i + 1)
      let sr := if j - i > 1 then sort_declarations r cmds i j else (cmds, r)
      decl_pass sr.2 sr.1 j
    else if isDeclDef cmds[i].2 && already then
      .error "declarations and definitions in multiple chunks"
    else
      decl_pass r cmds (i + 1)
  else .ok (cmds, r)
termination_by cmds.length - i
decreasing_by
  · have h1 := run_end_decl_ge cmds (i + 1)
    split
    · rw [sort_declarations_length]; omega
    · dsimp only; omega
  · omega

/-- `print_ranked(out, keep_annotations)` (lines 865-927): rank-sort
each contiguous assertion run, number the identifiers appearing in the
(re-ordered) assertions by first occurrence (`assign_num`), sort each
contiguous declaration/definition run, then serialize and drain the
buffer.  The buffer pairs each command with its node address, which the
declaration sort uses as its tie-breaker. -/
def print_ranked (fl : Flags) (file : Option (List ℚ)) (m : AnnotMode) (st : PRState)
    (cmds : List (Nat × Node)) : Except String (String × PRState) :=
  match assert_pass file cmds 0 with
  | .error e => .error e
  | .ok cmds1 =>
    let reg1 := cmds1.foldl (fun r c => if c.2.symbol = "assert" then assign_num r c.2 else r)
      st.reg
    match decl_pass reg1 cmds1 0 with
    | .error e => .error e
    | .ok (cmds2, reg2) =>
      .ok (print_all fl m { reg := reg2, counter := st.counter } cmds2)

/-- The embedded transformation pipeline of one `print_ranked`
invocation from a fresh process state: `set_seed(s)`, then the passes
and serialization of `print_ranked`.  Returns the printed output (or the
error) together with the final generator state; `print_ranked` itself
draws nothing from the generator. -/
def run_pipeline (s : Nat) (fl : Flags) (file : Option (List ℚ)) (m : AnnotMode)
    (cmds : List (Nat × Node)) : Except String (String × PRState) × Nat :=
  (print_ranked fl file m { reg := regInit, counter := 1 } cmds, set_seed s)

/-! ### Unsat-core filtering

Source: lines 1060-1094 (`get_named_annot`) and 1099-1116
(`filter_named`).  The `unordered_set<node *> seen` guard of
`get_named_annot` protects against revisiting a node instance; the
buffer holds strict trees (each node is allocated once and owned by one
parent), so the guard never fires and is dropped from the embedding. -/

theorem list_sum_sizeOf_lt (cs : List Node) : (cs.map sizeOf).sum < sizeOf cs := by
  induction cs with
  | nil => simp
  | cons c cs ih =>
    simp only [List.map_cons, List.sum_cons, List.cons.sizeOf_spec]
    omega

theorem children_sizeOf_lt (n : Node) : (n.children.map sizeOf).sum < sizeOf n := by
  cases n with
  | mk s b p cs =>
    have h := list_sum_sizeOf_lt cs
    simp only [Node.children, Node.mk.sizeOf_spec]
    omega

/-- The attribute scan of `get_named_annot` (lines 1077-1085): over the
given attribute children, return the first `:named` attribute's attached
name. -/
def gna_find (attrs : List Node) : Option String :=
  attrs.findSome? (fun attr =>
    if attr.symbol = ":named" then
      match attr.children with
      | c0 :: _ => some c0.symbol
      | [] => none
    else none)

theorem gna_dec_take (cur : Node) (rest : List Node) :
    ((cur.children.take 1 ++ rest).map sizeOf).sum < ((cur :: rest).map sizeOf).sum := by
  have h1 := children_sizeOf_lt cur
  have h2 : ((cur.children.take 1).map sizeOf).sum ≤ (cur.children.map sizeOf).sum := by
    cases hc : cur.children with
    | nil => simp
    | cons hd tl => simp [List.take]
  simp only [List.map_append, List.sum_append, List.map_cons, List.sum_cons]
  omega

theorem gna_dec_rev (cur : Node) (rest : List Node) :
    ((cur.children.reverse ++ rest).map sizeOf).sum < ((cur :: rest).map sizeOf).sum := by
  have h1 := children_sizeOf_lt cur
  simp only [List.map_append, List.sum_append, List.map_cons, List.sum_cons,
    List.map_reverse, List.sum_reverse]
  omega

/-- The explicit-stack traversal of `get_named_annot` (lines 1066-1091).
The stack is popped from the back, so a non-annotation node's children
are visited in reverse order; an annotation node pushes its first child
and then scans its remaining children for a `:named` attribute,
returning immediately when one is found. -/
def gna_loop : List Node → String
  | [] => ""
  | cur :: rest =>
    if cur.symbol = "!" then
      match gna_find cur.children.tail with
      | some s => s
      | none => gna_loop (cur.children.take 1 ++ rest)
    else
      gna_loop (cur.children.reverse ++ rest)
termination_by l => (l.map sizeOf).sum
decreasing_by
  · exact gna_dec_take _ _
  · exact gna_dec_rev _ _

/-- `get_named_annot(root)` (lines 1060-1094). -/
def get_named_annot (root : Node) : String :=
  gna_loop [root]

/-- `filter_named(to_keep)` (lines 1099-1116): in-place compaction of
the command buffer; the two-index loop appends each kept command to the
output prefix, which is modelled by folding with an output accumulator.
An `assert` command is dropped exactly when its named annotation is
non-empty and not in `to_keep`. -/
def filter_named (to_keep : List String) (cmds : List Node) : List Node :=
  cmds.foldl (fun acc cur =>
    let keep :=
      if cur.symbol = "assert" then
        let name := get_named_annot cur
        !(!name.isEmpty && !to_keep.contains name)
      else true
    if keep then acc ++ [cur] else acc) []

/-! ### The `-core` file parser

Source: lines 1016-1058 (`parse_core`).  The input stream is modelled
as a list of characters; `operator>>` extraction skips whitespace and
reads a maximal non-whitespace token, failing (and clearing the string)
at end of input. -/

/-- C `isspace`: space, `\t`, `\n`, `\v`, `\f`, `\r`. -/
def isSpaceC (ch : Char) : Bool :=
  ch = ' ' || ch = '\t' || ch = '\n' || ch = '\x0b' || ch = '\x0c' || ch = '\r'

/-- `src >> name`: skip whitespace, then read a maximal non-whitespace
token; `none` models stream failure at end of input. -/
def readToken (cs : List Char) : Option (String × List Char) :=
  if ((cs.dropWhile isSpaceC).takeWhile (fun ch => !isSpaceC ch)).isEmpty then none
  else some (String.mk ((cs.dropWhile isSpaceC).takeWhile (fun ch => !isSpaceC ch)),
    (cs.dropWhile isSpaceC).dropWhile (fun ch => !isSpaceC ch))

theorem readToken_shrink {cs : List Char} {t : String} {rest : List Char}
    (h : readToken cs = some (t, rest)) : rest.length < cs.length := by
  unfold readToken at h
  split at h
  · exact absurd h (by simp)
  · rename_i htok
    rw [Option.some.injEq, Prod.mk.injEq] at h
    obtain ⟨h1, h2⟩ := h
    subst h2
    have hsplit := List.takeWhile_append_dropWhile (fun ch => !isSpaceC ch)
      (cs.dropWhile isSpaceC)
    have hsplit2 := List.takeWhile_append_dropWhile isSpaceC cs
    have e1 : (List.takeWhile (fun ch => !isSpaceC ch) (cs.dropWhile isSpaceC)).length
        + (List.dropWhile (fun ch => !isSpaceC ch) (cs.dropWhile isSpaceC)).length
        = (cs.dropWhile isSpaceC).length := by
      rw [← List.length_append, hsplit]
    have e2 : (List.takeWhile isSpaceC cs).length + (cs.dropWhile isSpaceC).length
        = cs.length := by
      rw [← List.length_append, hsplit2]
    have htoklen : (List.takeWhile (fun ch => !isSpaceC ch) (cs.dropWhile isSpaceC)).length
        ≠ 0 := by
      intro hz
      rw [List.length_eq_zero] at hz
      rw [hz] at htok
      simp at htok
    omega

/-- The character loop at lines 1024-1029: skip characters until `(`;
any non-whitespace character before it, or end of input, is a failure
(`none`). -/
def scanToParen : List Char → Option (List Char)
  | [] => none
  | ch :: cs => if ch = '(' then some cs else if isSpaceC ch then scanToParen cs else none

/-- The name-collection loop at lines 1033-1046: extract tokens until
one ends in `)`; strip that one `)`, record the name when non-empty, and
succeed; fail at end of input. -/
def parse_core_list (acc : List String) (cs : List Char) : Bool × List String :=
  match h : readToken cs with
  | none => (false, acc)
  | some (name, rest) =>
    if name.back = ')' then
      let name' := name.dropRight 1
      (true, if !name'.isEmpty then acc ++ [name'] else acc)
    else
      parse_core_list (acc ++ [name]) rest
termination_by cs.length
decreasing_by
  exact readToken_shrink h

/-- `parse_core(src, out)` (lines 1016-1058): the token `unsat`, then
only whitespace up to `(`, then the name-collection loop.  Returns the
acceptance flag and the collected names. -/
def parse_core (cs : List Char) : Bool × List String :=
  match readToken cs with
  | none => (false, [])
  | some (name, rest) =>
    if name ≠ "unsat" then (false, [])
    else
      match scanToParen rest with
      | none => (false, [])
      | some rest' => parse_core_list [] rest'

/-! ### General lemmas: sorting with a strict comparator

`std::sort` with comparator `r` produces a sequence that is pairwise
non-descending for the associated non-strict order.  The embedding uses
`List.insertionSort r`; the lemmas below give its pairwise bound for any
`S` compatible with `r` (`Sorted S` cannot come from Mathlib's
`sorted_insertionSort` because a strict comparator is not total). -/

theorem sorted_orderedInsert_of {α : Type} (r : α → α → Prop) [DecidableRel r]
    (S : α → α → Prop) (hTrans : ∀ x y z, S x y → S y z → S x z)
    (hrS : ∀ x y, r x y → S x y) (hnS : ∀ x y, ¬ r x y → S y x)
    (x : α) (l : List α) (hl : List.Sorted S l) :
    List.Sorted S (List.orderedInsert r x l) := by
  induction l with
  | nil => simp
  | cons y ys ih =>
    rw [List.orderedInsert]
    split
    · rename_i hr
      rw [List.sorted_cons]
      refine ⟨?_, hl⟩
      intro b hb
      rcases List.mem_cons.mp hb with hby | hb
      · rw [hby]
        exact hrS x y hr
      · rw [List.sorted_cons] at hl
        exact hTrans x y b (hrS x y hr) (hl.1 b hb)
    · rename_i hnr
      rw [List.sorted_cons] at hl ⊢
      obtain ⟨hy, hys⟩ := hl
      refine ⟨?_, ih hys⟩
      intro b hb
      rcases (List.mem_orderedInsert r).mp hb with hbx | hb
      · rw [hbx]
        exact hnS x y hnr
      · exact hy b hb

theorem sorted_insertionSort_of {α : Type} (r : α → α → Prop) [DecidableRel r]
    (S : α → α → Prop) (hTrans : ∀ x y z, S x y → S y z → S x z)
    (hrS : ∀ x y, r x y → S x y) (hnS : ∀ x y, ¬ r x y → S y x) :
    ∀ l : List α, List.Sorted S (List.insertionSort r l)
  | [] => List.sorted_nil
  | a :: l => sorted_orderedInsert_of r S hTrans hrS hnS a _
      (sorted_insertionSort_of r S hTrans hrS hnS l)

/-! ### General lemmas: window write-back and swapping -/

theorem writeRange_window (temp : List α) (v : List α) (start : Nat)
    (h : start + temp.length ≤ v.length) :
    (((writeRange v start temp).drop start).take temp.length) = temp := by
  apply List.ext_getElem?
  intro m
  rw [List.getElem?_take, List.getElem?_drop]
  split
  · rename_i hm
    exact writeRange_getElem?_inside temp v start m hm (by omega)
  · rename_i hm
    exact (List.getElem?_eq_none (by omega)).symm

theorem count_set_add {α : Type} [DecidableEq α] (v : List α) (n : Nat) (b x c : α)
    (hc : v[n]? = some c) :
    (v.set n b).count x + (if c = x then 1 else 0)
      = v.count x + (if b = x then 1 else 0) := by
  have h : n < v.length := by
    by_contra hcon
    rw [List.getElem?_eq_none (by omega)] at hc
    exact absurd hc (by simp)
  have hcn : v[n] = c := by
    rw [List.getElem?_eq_getElem h] at hc
    exact Option.some.inj hc
  have hset := List.set_eq_take_cons_drop b h
  have hv : v = v.take n ++ v[n] :: v.drop (n + 1) := by
    conv_lhs => rw [← List.take_append_drop n v]
    rw [← List.getElem_cons_drop v n h]
  rw [hset]
  conv_rhs => rw [hv]
  rw [hcn]
  simp only [List.count_append, List.count_cons]
  by_cases h1 : b = x <;> by_cases h2 : c = x <;> simp [h1, h2] <;> omega

theorem listSwap_getElem?_outside (v : List α) (i j k : Nat)
    (h1 : k ≠ i) (h2 : k ≠ j) : (listSwap v i j)[k]? = v[k]? := by
  unfold listSwap
  cases hvi : v[i]? <;> cases hvj : v[j]? <;> try rfl
  rw [List.getElem?_set_ne (Ne.symm h2), List.getElem?_set_ne (Ne.symm h1)]

theorem set_getElem_self (v : List α) (n : Nat) (h : n < v.length) :
    v.set n v[n] = v := by
  apply List.ext_getElem?
  intro m
  by_cases hm : m = n
  · subst hm
    rw [List.getElem?_set_self h, List.getElem?_eq_getElem h]
  · exact List.getElem?_set_ne (Ne.symm hm)

theorem listSwap_perm {α : Type} [DecidableEq α] (v : List α) (i j : Nat) :
    (listSwap v i j).Perm v := by
  cases hvi : v[i]? with
  | none =>
    have : listSwap v i j = v := by
      unfold listSwap
      rw [hvi]
    rw [this]
  | some x =>
    cases hvj : v[j]? with
    | none =>
      have : listSwap v i j = v := by
        unfold listSwap
        rw [hvi, hvj]
      rw [this]
    | some y =>
      have hi : i < v.length := by
        by_contra hcon
        rw [List.getElem?_eq_none (by omega)] at hvi
        exact absurd hvi (by simp)
      have hj : j < v.length := by
        by_contra hcon
        rw [List.getElem?_eq_none (by omega)] at hvj
        exact absurd hvj (by simp)
      have hswap : listSwap v i j = (v.set i y).set j x := by
        unfold listSwap
        rw [hvi, hvj]
      rw [hswap]
      by_cases hij : i = j
      · subst hij
        have hxy : x = y := by
          rw [hvi] at hvj
          exact Option.some.inj hvj
        subst hxy
        have hxi : v[i] = x := by
          rw [List.getElem?_eq_getElem hi] at hvi
          exact Option.some.inj hvi
        rw [List.set_set, ← hxi, set_getElem_self v i hi]
      · rw [List.perm_iff_count]
        intro a
        have hc1 : (v.set i y)[j]? = some y := by
          rw [List.getElem?_set_ne hij]
          exact hvj
        have e1 := count_set_add (v.set i y) j x a y hc1
        have e2 := count_set_add v i y a x hvi
        split_ifs at e1 e2 <;> omega

/-! ### Specification-side definitions

These definitions follow the specification's words, not the source; each
is compared against the corresponding source-derived definition by a
refinement theorem or a counterexample. -/

/-- The generator update exactly as the specification states it:
`state = (state * a + c) mod 2 ^ 48`, with the return value computed
from that state.  Compared against `next_rand_int`. -/
def next_rand_int_claim (seed : Nat) (upper_bound : Nat) : Nat × Nat :=
  let seed' := (seed * rng_a + rng_c) % 2 ^ 48
  ((seed' >>> 16) % upper_bound, seed')

mutual

/-- The tag scan as the specification states it: the symbol of the first
`is_name` (non-`=`) node in depth-first preorder over the descendants. -/
def firstNameDFS : List Node → Option String
  | [] => none
  | c :: rest =>
    if isNameChild c then some c.symbol
    else
      match firstNameDFSNode c with
      | some s => some s
      | none => firstNameDFS rest

/-- Preorder descent of `firstNameDFS` into one node's children. -/
def firstNameDFSNode : Node → Option String
  | .mk _ _ _ cs => firstNameDFS cs

end

/-- The command tag as the specification states it: the registered id of
the first referenced declared-name descendant found by depth-first
traversal (0 if none). -/
def find_var_spec (f : String → Nat) (n : Node) : Nat :=
  match firstNameDFS n.children with
  | some s => f (unquote s)
  | none => 0

/-- The declaration sort as the specification states it: tag each
command with `find_var_spec` and stably sort the run ascending by tag
(insertion sort with a non-strict comparator is stable). -/
def sort_declarations_spec (f : String → Nat) (cmds : List Node) : List Node :=
  List.insertionSort (fun x y => find_var_spec f x ≤ find_var_spec f y) cmds

/-- First occurrences of a list of strings, kept in order of first
appearance. -/
def firstOcc (us : List String) : List String :=
  us.foldl (fun acc u => if u ∈ acc then acc else acc ++ [u]) []

/-- All whitespace-delimited tokens of a character stream, in order. -/
def tokensOf (cs : List Char) : List String :=
  match h : readToken cs with
  | none => []
  | some (t, rest) => t :: tokensOf rest
termination_by cs.length
decreasing_by exact readToken_shrink h

/-- The claim-side strict list shape: tokens until one ends in the
closing delimiter, after which only whitespace may remain (the input
must *consist of* the parenthesized list). -/
def parse_core_strict_list (cs : List Char) : Bool :=
  match h : readToken cs with
  | none => false
  | some (name, rest) =>
    if name.back = ')' then rest.all isSpaceC
    else parse_core_strict_list rest
termination_by cs.length
decreasing_by exact readToken_shrink h

/-- The core-keep-set file shape exactly as the claim states it: the
literal token `unsat`, a parenthesized whitespace-separated list of
names terminated by the closing delimiter, and nothing else. -/
def parse_core_strict (cs : List Char) : Bool :=
  match readToken cs with
  | none => false
  | some (name, rest) =>
    if name ≠ "unsat" then false
    else
      match scanToParen rest with
      | none => false
      | some rest' => parse_core_strict_list rest'

/-- A registry operation: a declaration (`set_new_name`) or a lookup
(`get_name_id`). -/
inductive RegOp where
  | decl (w : String)
  | look (w : String)

/-- Run a sequence of operations against the declaration-order
registry. -/
def runOps (r : Registry) (ops : List RegOp) : Registry :=
  ops.foldl (fun r op =>
    match op with
    | .decl w => set_new_name r w
    | .look w => (get_name_id r w).2) r

/-- Run a sequence of operations against the first-occurrence registry
(`set_new_name_sorted` / `get_name_id_sorted`). -/
def runOpsSorted (r : Registry) (ops : List RegOp) : Registry :=
  ops.foldl (fun r op =>
    match op with
    | .decl w => set_new_name_sorted r w
    | .look w => (get_name_id_sorted r w).2) r

/-! ### Association-list lemmas for the registries -/

theorem lookup_append_some {m : List (String × Nat)} {k : String} {v : Nat}
    (h : m.lookup k = some v) (m' : List (String × Nat)) :
    (m ++ m').lookup k = some v := by
  induction m with
  | nil => simp [List.lookup] at h
  | cons p m ih =>
    cases p with
    | mk a b =>
      rw [List.cons_append]
      cases hk : k == a with
      | true => simp [List.lookup, hk] at h ⊢; exact h
      | false =>
        simp only [List.lookup, hk] at h ⊢
        exact ih h

theorem lookup_append_self {m : List (String × Nat)} {k : String}
    (h : m.lookup k = none) (x : Nat) : (m ++ [(k, x)]).lookup k = some x := by
  induction m with
  | nil => simp [List.lookup]
  | cons p m ih =>
    cases p with
    | mk a b =>
      rw [List.cons_append]
      cases hk : k == a with
      | true => simp [List.lookup, hk] at h
      | false =>
        simp only [List.lookup, hk] at h ⊢
        exact ih h

theorem set_new_name_preserves (r : Registry) (w : String) {k : String} {v : Nat}
    (h : r.map.lookup k = some v) : (set_new_name r w).map.lookup k = some v := by
  unfold set_new_name
  dsimp only
  split
  · exact h
  · exact lookup_append_some h _

theorem get_name_id_preserves (r : Registry) (w : String) {k : String} {v : Nat}
    (h : r.map.lookup k = some v) : ((get_name_id r w).2).map.lookup k = some v := by
  unfold get_name_id
  dsimp only
  split
  · exact h
  · exact lookup_append_some h _

theorem get_name_id_val_of_lookup {r : Registry} {s : String} {v : Nat}
    (h : r.map.lookup (unquote s) = some v) : (get_name_id r s).1 = v := by
  unfold get_name_id
  dsimp only
  split
  · rename_i v' hv'
    rw [h] at hv'
    exact (Option.some.inj hv').symm
  · rename_i hv'
    rw [h] at hv'
    cases hv'

theorem runOps_preserves (ops : List RegOp) (r : Registry) {k : String} {v : Nat}
    (h : r.map.lookup k = some v) : (runOps r ops).map.lookup k = some v := by
  induction ops generalizing r with
  | nil => exact h
  | cons op ops ih =>
    cases op with
    | decl w => exact ih _ (set_new_name_preserves r w h)
    | look w => exact ih _ (get_name_id_preserves r w h)

theorem set_new_name_sorted_eq : set_new_name_sorted = set_new_name := rfl

theorem get_name_id_sorted_eq : get_name_id_sorted = get_name_id := rfl

theorem runOpsSorted_eq : runOpsSorted = runOps := rfl

theorem foldl_append_filter {α : Type} (p : α → Bool) (cmds : List α) :
    ∀ acc : List α,
      cmds.foldl (fun acc cur => if p cur then acc ++ [cur] else acc) acc
        = acc ++ cmds.filter p := by
  induction cmds with
  | nil => intro acc; simp
  | cons cur cmds ih =>
    intro acc
    rw [List.foldl_cons, List.filter_cons]
    cases hp : p cur <;> simp [hp, ih]

theorem lookup_zip_range' (acc : List String) (u : String) :
    ∀ k, (acc.zip (List.range' k acc.length)).lookup u
      = if u ∈ acc then some (k + acc.indexOf u) else none := by
  induction acc with
  | nil => intro k; simp
  | cons a acc ih =>
    intro k
    rw [List.length_cons, List.range'_succ, List.zip_cons_cons]
    by_cases hu : u = a
    · subst hu
      simp [List.lookup, List.indexOf_cons]
    · have hbeq : (u == a) = false := by simp [hu]
      have hbeq' : (a == u) = false := by simp [Ne.symm hu]
      simp only [List.lookup, hbeq]
      rw [ih (k + 1)]
      by_cases hmem : u ∈ acc
      · rw [if_pos hmem, if_pos (List.mem_cons.mpr (Or.inr hmem))]
        rw [List.indexOf_cons, hbeq']
        simp only [cond_false]
        congr 1
        omega
      · rw [if_neg hmem, if_neg (by simp [hu, hmem])]

theorem set_new_name_idem (r : Registry) (w : String) :
    set_new_name (set_new_name r w) w = set_new_name r w := by
  by_cases hs : (r.map.lookup (unquote w)).isSome
  · simp [set_new_name, hs]
  · have hnone : r.map.lookup (unquote w) = none := by
      cases hl : r.map.lookup (unquote w)
      · rfl
      · rw [hl] at hs
        simp at hs
    have hsome : ((r.map ++ [(unquote w, r.next)]).lookup (unquote w)).isSome := by
      rw [lookup_append_self hnone]
      rfl
    simp [set_new_name, hs, hnone, hsome]

theorem set_new_name_prefix_map (r : Registry) (w : String) :
    r.map <+: (set_new_name r w).map := by
  unfold set_new_name
  dsimp only
  split
  · exact List.prefix_rfl
  · exact List.prefix_append _ _

theorem foldl_set_new_name_prefix_map (ws : List String) :
    ∀ r : Registry, r.map <+: (ws.foldl set_new_name r).map := by
  induction ws with
  | nil => intro r; exact List.prefix_rfl
  | cons w ws ih =>
    intro r
    exact (set_new_name_prefix_map r w).trans (ih _)

theorem get_name_id_val_of_none {r : Registry} {s : String}
    (h : r.map.lookup (unquote s) = none) : (get_name_id r s).1 = 0 := by
  unfold get_name_id
  dsimp only
  split
  · rename_i v hv
    rw [h] at hv
    cases hv
  · rfl

theorem registry_fold_inv : ∀ (ws : List String) (st : Registry) (acc : List String),
    st.map = acc.zip (List.range' 1 acc.length) → st.next = acc.length + 1 →
    (ws.foldl set_new_name st).map
        = ((ws.map unquote).foldl (fun acc u => if u ∈ acc then acc else acc ++ [u]) acc).zip
          (List.range' 1
            ((ws.map unquote).foldl (fun acc u => if u ∈ acc then acc else acc ++ [u]) acc).length)
    ∧ (ws.foldl set_new_name st).next
        = ((ws.map unquote).foldl (fun acc u => if u ∈ acc then acc else acc ++ [u]) acc).length
          + 1 := by
  intro ws
  induction ws with
  | nil => intro st acc h1 h2; exact ⟨h1, h2⟩
  | cons w ws ih =>
    intro st acc h1 h2
    rw [List.foldl_cons, List.map_cons, List.foldl_cons]
    by_cases hmem : unquote w ∈ acc
    · have hsome : (st.map.lookup (unquote w)).isSome := by
        rw [h1, lookup_zip_range' acc (unquote w) 1, if_pos hmem]
        rfl
      have hst : set_new_name st w = st := by
        unfold set_new_name
        dsimp only
        rw [if_pos hsome]
      rw [hst, if_pos hmem]
      exact ih st acc h1 h2
    · have hlk : st.map.lookup (unquote w) = none := by
        rw [h1, lookup_zip_range' acc (unquote w) 1, if_neg hmem]
      have hst : set_new_name st w
          = { map := st.map ++ [(unquote w, st.next)], next := st.next + 1 } := by
        unfold set_new_name
        dsimp only
        rw [if_neg (by rw [hlk]; simp)]
      rw [hst, if_neg hmem]
      apply ih
      · show st.map ++ [(unquote w, st.next)]
            = (acc ++ [unquote w]).zip (List.range' 1 (acc ++ [unquote w]).length)
        rw [List.length_append, List.length_singleton, List.range'_concat,
          List.zip_append (by rw [List.length_range']), h1, h2]
        simp
        omega
      · show st.next + 1 = (acc ++ [unquote w]).length + 1
        rw [h2, List.length_append, List.length_singleton]

theorem lookup_append_none {m : List (String × Nat)} {k : String}
    (h : m.lookup k = none) (m' : List (String × Nat)) :
    (m ++ m').lookup k = m'.lookup k := by
  induction m with
  | nil => rfl
  | cons p m ih =>
    cases p with
    | mk a b =>
      rw [List.cons_append]
      cases hk : k == a with
      | true => simp [List.lookup, hk] at h
      | false =>
        simp only [List.lookup, hk] at h ⊢
        exact ih h

theorem get_name_id_sorted_val (r : Registry) (s : String) :
    (get_name_id_sorted r s).1 = regVal r (unquote s) := by
  unfold get_name_id_sorted regVal
  dsimp only
  split
  · rename_i v hv
    rw [hv]
    rfl
  · rename_i hv
    rw [hv]
    rfl

theorem regVal_get_name_id_sorted (r : Registry) (s : String) :
    regVal ((get_name_id_sorted r s).2) = regVal r := by
  funext k
  unfold get_name_id_sorted regVal
  dsimp only
  split
  · rfl
  · dsimp only
    cases hl : r.map.lookup k with
    | some v => rw [lookup_append_some hl]
    | none =>
      rw [lookup_append_none hl]
      cases hk : k == unquote s <;> simp [List.lookup, hk]

mutual

theorem find_var_props (r : Registry) (n : Node) :
    (find_var r n).1 = find_var_val (regVal r) n
    ∧ regVal ((find_var r n).2) = regVal r := by
  cases n with
  | mk sym isn np cs =>
    rw [find_var, find_var_val]
    cases hfind : cs.find? isNameChild with
    | some c =>
      exact ⟨get_name_id_sorted_val r c.symbol, regVal_get_name_id_sorted r c.symbol⟩
    | none => exact find_var_kids_props r sym.isEmpty cs

theorem find_var_kids_props (r : Registry) (symEmpty : Bool) (cs : List Node) :
    (find_var_kids r symEmpty cs).1 = find_var_val_kids (regVal r) symEmpty cs
    ∧ regVal ((find_var_kids r symEmpty cs).2) = regVal r := by
  cases cs with
  | nil => exact ⟨rfl, rfl⟩
  | cons c0 rest =>
    rw [find_var_kids.eq_def, find_var_val_kids.eq_def]
    cases symEmpty with
    | false =>
      simp only [Bool.false_eq_true, if_neg]
      exact find_var_props r c0
    | true =>
      simp only [if_pos]
      cases rest with
      | nil => exact ⟨rfl, rfl⟩
      | cons c1 rest2 => exact find_var_props r c1

end

theorem tagWindow_aux (ws : List (Nat × Node)) :
    ∀ (acc : List (Nat × Nat × Node)) (r : Registry),
      ((ws.foldl (fun acc p =>
          let t := find_var acc.2 p.2
          (acc.1 ++ [(t.1, p)], t.2)) (acc, r)).1
        = acc ++ ws.map (fun p => (find_var_val (regVal r) p.2, p)))
      ∧ regVal ((ws.foldl (fun acc p =>
          let t := find_var acc.2 p.2
          (acc.1 ++ [(t.1, p)], t.2)) (acc, r)).2) = regVal r := by
  induction ws with
  | nil =>
    intro acc r
    exact ⟨by simp, rfl⟩
  | cons p ws ih =>
    intro acc r
    rw [List.foldl_cons, List.map_cons]
    have hv := find_var_props r p.2
    have hstep := ih (acc ++ [((find_var r p.2).1, p)]) ((find_var r p.2).2)
    rw [hv.2] at hstep
    constructor
    · rw [hstep.1, hv.1]
      simp
    · exact hstep.2

theorem tagWindow_props (r : Registry) (ws : List (Nat × Node)) :
    (tagWindow r ws).1 = ws.map (fun p => (find_var_val (regVal r) p.2, p))
    ∧ regVal ((tagWindow r ws).2) = regVal r := by
  have h := tagWindow_aux ws [] r
  rw [List.nil_append] at h
  exact h

theorem writeRange_decomp (temp : List α) (v : List α) (start : Nat)
    (h : start + temp.length ≤ v.length) :
    writeRange v start temp = v.take start ++ (temp ++ v.drop (start + temp.length)) := by
  apply List.ext_getElem?
  intro k
  have hlentake : (v.take start).length = start := by
    rw [List.length_take]
    omega
  by_cases hk1 : k < start
  · rw [writeRange_getElem?_outside _ _ _ _ (Or.inl hk1),
      List.getElem?_append_left (by omega), List.getElem?_take, if_pos hk1]
  · by_cases hk2 : k < start + temp.length
    · have hm : k = start + (k - start) := by omega
      rw [List.getElem?_append_right (by omega)]
      rw [List.getElem?_append_left (by omega), hlentake]
      conv_lhs => rw [hm]
      rw [writeRange_getElem?_inside _ _ _ _ (by omega) (by omega)]
    · rw [writeRange_getElem?_outside _ _ _ _ (Or.inr (by omega)),
        List.getElem?_append_right (by omega),
        List.getElem?_append_right (by rw [hlentake]; omega),
        List.getElem?_drop, hlentake]
      congr 1
      omega

/-! ## The claims -/

/-- C1: for every fixed seed and fixed input command stream (with fixed
node addresses), two runs of the embedded transformation pipeline —
`set_seed`, then the passes and serialization performed by
`print_ranked` — produce identical output: the pipeline is a
deterministic function of the seed and the input (and `print_ranked`
draws nothing from the generator, so the draw order is trivially the
same fixed one in both runs). -/
theorem run_pipeline_deterministic (s : Nat) (fl : Flags) (file : Option (List ℚ))
    (m : AnnotMode) (cmds : List (Nat × Node))
    (o₁ o₂ : Except String (String × PRState) × Nat)
    (h₁ : run_pipeline s fl file m cmds = o₁)
    (h₂ : run_pipeline s fl file m cmds = o₂) : o₁ = o₂ :=
  h₁.symm.trans h₂

/-- Witness for `run_pipeline_deterministic`: two runs at seed 7, a
concrete rank file and a concrete two-assertion stream agree. -/
theorem run_pipeline_deterministic_witness :
    run_pipeline 7 ⟨false, false, false, false⟩ (some [9/10, 1/10]) AnnotMode.all
        [(0, Node.mk "assert" false true []), (1, Node.mk "assert" false true [])]
      = run_pipeline 7 ⟨false, false, false, false⟩ (some [9/10, 1/10]) AnnotMode.all
        [(0, Node.mk "assert" false true []), (1, Node.mk "assert" false true [])] :=
  run_pipeline_deterministic 7 ⟨false, false, false, false⟩ (some [9/10, 1/10])
    AnnotMode.all
    [(0, Node.mk "assert" false true []), (1, Node.mk "assert" false true [])]
    _ _ rfl rfl

/-- C2 counterexample: the claimed state update `mod 2 ^ 48` disagrees
with the code.  `mask = ~(2ULL << 48)` clears only bit 49, so at seed
11164 (where `seed * a + c` lies in `[2 ^ 48, 2 ^ 49)`) the code keeps
bit 48 while the claimed update drops it: both the new state and the
value returned for bound `2 ^ 33` differ. -/
theorem next_rand_int_ne_claim :
    next_rand_int (set_seed 11164) (2 ^ 33)
      ≠ next_rand_int_claim (set_seed 11164) (2 ^ 33) := by
  decide

/-- C2 (amended): `next_rand_int` advances the state to
`(state * 25214903917 + 11) mod 2 ^ 64` with bit 49 cleared and every
other bit kept (the mask `~(2ULL << 48)` is *not* reduction
`mod 2 ^ 48`), and returns `(state >> 16) mod bound`, which is
`< bound` whenever `bound > 0`; `set_seed(s)` initializes the state
to `s`. -/
theorem next_rand_int_masked (seed upper_bound : Nat) :
    ((next_rand_int seed upper_bound).2).testBit 49 = false
    ∧ (∀ i, i ≠ 49 → ((next_rand_int seed upper_bound).2).testBit i
        = ((seed * 25214903917 + 11) % 2 ^ 64).testBit i)
    ∧ (next_rand_int seed upper_bound).1
        = ((next_rand_int seed upper_bound).2 >>> 16) % upper_bound
    ∧ (0 < upper_bound → (next_rand_int seed upper_bound).1 < upper_bound)
    ∧ set_seed seed = seed := by
  refine ⟨?_, ?_, rfl, ?_, rfl⟩
  · show ((((seed * rng_a + rng_c) % 2 ^ 64) &&& rng_mask)).testBit 49 = false
    rw [Nat.testBit_land]
    have hm : rng_mask.testBit 49 = false := by decide
    rw [hm, Bool.and_false]
  · intro i hi
    show ((((seed * rng_a + rng_c) % 2 ^ 64) &&& rng_mask)).testBit i = _
    rw [Nat.testBit_land]
    by_cases h64 : i < 64
    · have hb : ∀ j, j < 64 → j ≠ 49 → rng_mask.testBit j = true := by decide
      rw [hb i h64 hi, Bool.and_true]
      rfl
    · have ht : ((seed * rng_a + rng_c) % 2 ^ 64).testBit i = false := by
        apply Nat.testBit_lt_two_pow
        calc (seed * rng_a + rng_c) % 2 ^ 64 < 2 ^ 64 := Nat.mod_lt _ (by norm_num)
          _ ≤ 2 ^ i := Nat.pow_le_pow_right (by norm_num) (by omega)
      have ht' : ((seed * 25214903917 + 11) % 2 ^ 64).testBit i = false := ht
      rw [ht, ht', Bool.false_and]
  · intro hub
    show (((((seed * rng_a + rng_c) % 2 ^ 64) &&& rng_mask)) >>> 16) % upper_bound
      < upper_bound
    exact Nat.mod_lt _ hub

/-- Witness for `next_rand_int_masked` at seed 3, bound 5: the
hypothesis-bearing conjuncts applied at `i = 48` and at `0 < 5`. -/
theorem next_rand_int_masked_witness :
    ((48 : Nat) ≠ 49 ∧ ((next_rand_int 3 5).2).testBit 48
        = ((3 * 25214903917 + 11) % 2 ^ 64).testBit 48)
    ∧ ((0 : Nat) < 5 ∧ (next_rand_int 3 5).1 < 5) :=
  ⟨⟨by decide, (next_rand_int_masked 3 5).2.1 48 (by decide)⟩,
   ⟨by decide, (next_rand_int_masked 3 5).2.2.2.1 (by decide)⟩⟩

/-- C5: the claim says a buffer whose assertions are split across two
non-adjacent contiguous runs makes `print_ranked` abort; the code does
not.  `bool already = false;` is declared *inside* the scan loop
(line 873), so the `throw std::invalid_argument("assertions in multiple
chunks")` branch can never execute: on the stream
`assert p; check-sat; assert q` — two disjoint assertion runs — the pass
quietly processes both runs and prints the whole buffer.  (The same dead
flag guards the declaration scan.) -/
theorem print_ranked_two_runs_no_abort :
    print_ranked ⟨false, false, false, false⟩ Option.none AnnotMode.all ⟨regInit, 1⟩
      [(0, Node.mk "assert" false true [Node.mk "p" true false []]),
       (1, Node.mk "check-sat" false true []),
       (2, Node.mk "assert" false true [Node.mk "q" true false []])]
    = .ok ("(assert x1)\n(check-sat)\n(assert x2)\n", ⟨⟨[("p", 1), ("q", 2)], 3⟩, 1⟩) := by
  have h_ap : assert_pass Option.none
      [(0, Node.mk "assert" false true [Node.mk "p" true false []]),
       (1, Node.mk "check-sat" false true []),
       (2, Node.mk "assert" false true [Node.mk "q" true false []])] 0
      = .ok [(0, Node.mk "assert" false true [Node.mk "p" true false []]),
       (1, Node.mk "check-sat" false true []),
       (2, Node.mk "assert" false true [Node.mk "q" true false []])] := by
    simp [assert_pass, run_end_assert, get_ranks, Node.symbol]
  have h_dp : ∀ r : Registry, decl_pass r
      [(0, Node.mk "assert" false true [Node.mk "p" true false []]),
       (1, Node.mk "check-sat" false true []),
       (2, Node.mk "assert" false true [Node.mk "q" true false []])] 0
      = .ok ([(0, Node.mk "assert" false true [Node.mk "p" true false []]),
       (1, Node.mk "check-sat" false true []),
       (2, Node.mk "assert" false true [Node.mk "q" true false []])], r) := by
    intro r
    have hd1 : isDeclDef (Node.mk "assert" false true [Node.mk "p" true false []])
        = false := by decide
    have hd2 : isDeclDef (Node.mk "check-sat" false true []) = false := by decide
    have hd3 : isDeclDef (Node.mk "assert" false true [Node.mk "q" true false []])
        = false := by decide
    simp [decl_pass, hd1, hd2, hd3]
  simp only [print_ranked, h_ap, h_dp]
  rfl


/-- C10: a lookup (`get_name_id`) of a symbol `s` before `s` is ever
declared silently registers `s` with identifier 0 (C++ `operator[]`
default-insertion); a subsequent declaration (`set_new_name`) then finds
`s` present and assigns no fresh identifier, and every later lookup
returns 0, whatever sequence of declarations and lookups runs in
between.  The same holds verbatim for the first-occurrence registry
(`get_name_id_sorted` / `set_new_name_sorted`), whose operations are
definitionally the same functions. -/
theorem lookup_before_declare_poisons (r : Registry) (s : String)
    (h : r.map.lookup (unquote s) = none) :
    (get_name_id r s).1 = 0
    ∧ ((get_name_id r s).2).map.lookup (unquote s) = some 0
    ∧ set_new_name ((get_name_id r s).2) s = (get_name_id r s).2
    ∧ (∀ ops, (runOps ((get_name_id r s).2) ops).map.lookup (unquote s) = some 0
        ∧ (get_name_id (runOps ((get_name_id r s).2) ops) s).1 = 0)
    ∧ (get_name_id_sorted r s).1 = 0
    ∧ set_new_name_sorted ((get_name_id_sorted r s).2) s = (get_name_id_sorted r s).2
    ∧ (∀ ops, (runOpsSorted ((get_name_id_sorted r s).2) ops).map.lookup (unquote s)
          = some 0
        ∧ (get_name_id_sorted (runOpsSorted ((get_name_id_sorted r s).2) ops) s).1 = 0) := by
  have h1 : (get_name_id r s).1 = 0 := by
    unfold get_name_id
    dsimp only
    split
    · rename_i v hv
      rw [h] at hv
      cases hv
    · rfl
  have h2 : ((get_name_id r s).2).map.lookup (unquote s) = some 0 := by
    unfold get_name_id
    dsimp only
    split
    · rename_i v hv
      rw [h] at hv
      cases hv
    · exact lookup_append_self h 0
  have h3 : set_new_name ((get_name_id r s).2) s = (get_name_id r s).2 := by
    unfold set_new_name
    dsimp only
    rw [h2]
    rfl
  have h4 : ∀ ops, (runOps ((get_name_id r s).2) ops).map.lookup (unquote s) = some 0
      ∧ (get_name_id (runOps ((get_name_id r s).2) ops) s).1 = 0 := by
    intro ops
    have hk := runOps_preserves ops _ h2
    exact ⟨hk, get_name_id_val_of_lookup hk⟩
  refine ⟨h1, h2, h3, h4, ?_, ?_, ?_⟩
  · rw [get_name_id_sorted_eq]
    exact h1
  · rw [get_name_id_sorted_eq, set_new_name_sorted_eq]
    exact h3
  · rw [get_name_id_sorted_eq, runOpsSorted_eq]
    exact h4

/-- Witness for `lookup_before_declare_poisons`: from the fresh registry,
look up `y`, then declare it and look it up again — the lookup still
returns 0. -/
theorem lookup_before_declare_poisons_witness :
    regInit.map.lookup (unquote "y") = none
    ∧ (get_name_id regInit "y").1 = 0
    ∧ set_new_name ((get_name_id regInit "y").2) "y" = (get_name_id regInit "y").2
    ∧ (get_name_id (runOps ((get_name_id regInit "y").2)
        [RegOp.decl "y", RegOp.look "y"]) "y").1 = 0 := by
  have h0 : regInit.map.lookup (unquote "y") = none := rfl
  have hthm := lookup_before_declare_poisons regInit "y" h0
  exact ⟨h0, hthm.1, hthm.2.2.1, (hthm.2.2.2.1 [RegOp.decl "y", RegOp.look "y"]).2⟩


/-- C7: `filter_named(keep_set)` compacts the command buffer to exactly
the order-preserving subsequence of the input consisting of all
non-assertion commands, all assertions whose named annotation is empty,
and all assertions whose named annotation is in the keep set; every
assertion whose named annotation is non-empty and not in the keep set is
dropped. -/
theorem filter_named_eq_filter (to_keep : List String) (cmds : List Node) :
    filter_named to_keep cmds = cmds.filter (fun cur =>
      decide (¬(cur.symbol = "assert" ∧ get_named_annot cur ≠ ""
        ∧ get_named_annot cur ∉ to_keep))) := by
  calc filter_named to_keep cmds
      = cmds.foldl (fun acc cur =>
          if (if cur.symbol = "assert" then
              !(!(get_named_annot cur).isEmpty && !(to_keep.contains (get_named_annot cur)))
            else true)
          then acc ++ [cur] else acc) [] := rfl
    _ = [] ++ cmds.filter (fun cur =>
          if cur.symbol = "assert" then
            !(!(get_named_annot cur).isEmpty && !(to_keep.contains (get_named_annot cur)))
          else true) := foldl_append_filter _ cmds []
    _ = cmds.filter (fun cur =>
          if cur.symbol = "assert" then
            !(!(get_named_annot cur).isEmpty && !(to_keep.contains (get_named_annot cur)))
          else true) := by rw [List.nil_append]
    _ = cmds.filter (fun cur =>
          decide (¬(cur.symbol = "assert" ∧ get_named_annot cur ≠ ""
            ∧ get_named_annot cur ∉ to_keep))) := by
      apply List.filter_congr
      intro cur _
      have hiff : (get_named_annot cur).isEmpty = decide (get_named_annot cur = "") := by
        by_cases h : get_named_annot cur = ""
        · rw [h]
          simp [String.isEmpty_iff]
        · have hfalse : (get_named_annot cur).isEmpty = false := by
            rw [← Bool.not_eq_true, String.isEmpty_iff]
            exact h
          simp [h, hfalse]
      by_cases h1 : cur.symbol = "assert" <;>
        by_cases h2 : get_named_annot cur = "" <;>
          by_cases h3 : get_named_annot cur ∈ to_keep <;>
            simp [h1, h2, h3, hiff, String.isEmpty_iff, List.contains, List.elem_iff]

/-- C8: running any sequence of declarations (`set_new_name`) from the
initial state assigns each distinct unquoted symbol a monotonically
increasing identifier starting at 1, exactly once, in first-declaration
order (the map is exactly the first-occurrence list zipped with
`1, 2, ...`); declaring is idempotent; the map is append-only across
further declarations (existing assignments are never changed or
removed); and `get_name_id` applies the same unquoting and returns the
registered identifier, or 0 for an unregistered symbol. -/
theorem registry_assigns_ids_in_order (ws : List String) :
    (ws.foldl set_new_name regInit).map
        = (firstOcc (ws.map unquote)).zip
            (List.range' 1 (firstOcc (ws.map unquote)).length)
    ∧ (ws.foldl set_new_name regInit).next = (firstOcc (ws.map unquote)).length + 1
    ∧ (∀ r w, set_new_name (set_new_name r w) w = set_new_name r w)
    ∧ (∀ ws', (ws.foldl set_new_name regInit).map
        <+: ((ws ++ ws').foldl set_new_name regInit).map)
    ∧ (∀ s, (get_name_id (ws.foldl set_new_name regInit) s).1
        = if unquote s ∈ firstOcc (ws.map unquote)
          then (firstOcc (ws.map unquote)).indexOf (unquote s) + 1
          else 0) := by
  have hinv := registry_fold_inv ws regInit [] (by rfl) (by rfl)
  have hfo : firstOcc (ws.map unquote)
      = (ws.map unquote).foldl (fun acc u => if u ∈ acc then acc else acc ++ [u]) [] := rfl
  refine ⟨?_, ?_, set_new_name_idem, ?_, ?_⟩
  · rw [hfo]
    exact hinv.1
  · rw [hfo]
    exact hinv.2
  · intro ws'
    rw [List.foldl_append]
    exact foldl_set_new_name_prefix_map ws' _
  · intro s
    have hl : (ws.foldl set_new_name regInit).map.lookup (unquote s)
        = if unquote s ∈ firstOcc (ws.map unquote)
          then some (1 + (firstOcc (ws.map unquote)).indexOf (unquote s)) else none := by
      rw [hfo, hinv.1]
      exact lookup_zip_range' _ _ 1
    by_cases hmem : unquote s ∈ firstOcc (ws.map unquote)
    · rw [if_pos hmem] at hl
      rw [if_pos hmem, get_name_id_val_of_lookup hl]
      omega
    · rw [if_neg hmem] at hl
      rw [if_neg hmem, get_name_id_val_of_none hl]


theorem next_rand_int_lt (seed b : Nat) (hb : 0 < b) : (next_rand_int seed b).1 < b :=
  Nat.mod_lt _ hb

theorem fyAux_props {α : Type} [DecidableEq α] :
    ∀ (i : Nat) (seed : Nat) (v : List α) (start : Nat), start + i < v.length →
      (fyAux seed v start i).1.length = v.length
      ∧ (fyAux seed v start i).1.Perm v
      ∧ ∀ k, k < start ∨ start + i < k → (fyAux seed v start i).1[k]? = v[k]? := by
  intro i
  induction i with
  | zero =>
    intro seed v start h
    exact ⟨rfl, List.Perm.refl v, fun k _ => rfl⟩
  | succ i ih =>
    intro seed v start h
    rw [fyAux]
    set d := next_rand_int seed (i + 2) with hd
    have hdlt : d.1 < i + 2 := next_rand_int_lt seed (i + 2) (by omega)
    set v' := listSwap v (i + 1 + start) (d.1 + start) with hv'
    have hlen' : v'.length = v.length := listSwap_length v _ _
    have hrec := ih d.2 v' start (by omega)
    refine ⟨hrec.1.trans hlen', hrec.2.1.trans (listSwap_perm v _ _), ?_⟩
    intro k hk
    rw [hrec.2.2 k (by omega)]
    exact listSwap_getElem?_outside v _ _ k (by omega) (by omega)

/-- C6: on a window `[start, stop)` with at least one element (and
in-bounds, as the C++ indexing requires), `shuffle_list` leaves the
window holding a permutation of its original contents and leaves every
element outside the window unchanged; and with `no_scramble` set it is a
no-op returning the vector and the generator state untouched. -/
theorem shuffle_list_window_perm {α : Type} [DecidableEq α] (v : List α)
    (seed start stop : Nat) (h1 : start < stop) (h2 : stop ≤ v.length) :
    (shuffle_list false seed v start stop).1.length = v.length
    ∧ (∀ k, k < start ∨ stop ≤ k → (shuffle_list false seed v start stop).1[k]? = v[k]?)
    ∧ (((shuffle_list false seed v start stop).1.drop start).take (stop - start)).Perm
        ((v.drop start).take (stop - start))
    ∧ (∀ s', shuffle_list true s' v start stop = (v, s')) := by
  have hbody : shuffle_list false seed v start stop = fyAux seed v start (stop - start - 1) := by
    rw [shuffle_list]
    simp
  have hprops := fyAux_props (stop - start - 1) seed v start (by omega)
  have hlen : (shuffle_list false seed v start stop).1.length = v.length := by
    rw [hbody]
    exact hprops.1
  have hout : ∀ k, k < start ∨ stop ≤ k
      → (shuffle_list false seed v start stop).1[k]? = v[k]? := by
    intro k hk
    rw [hbody]
    exact hprops.2.2 k (by omega)
  refine ⟨hlen, hout, ?_, fun s' => by rw [shuffle_list]; simp⟩
  set w := (shuffle_list false seed v start stop).1 with hw
  have hperm : w.Perm v := by
    rw [hw, hbody]
    exact hprops.2.1
  have htake : w.take start = v.take start := by
    apply List.ext_getElem?
    intro k
    rw [List.getElem?_take, List.getElem?_take]
    split
    · exact hout k (Or.inl (by omega))
    · rfl
  have hdrop : w.drop stop = v.drop stop := by
    apply List.ext_getElem?
    intro k
    rw [List.getElem?_drop, List.getElem?_drop]
    exact hout (stop + k) (Or.inr (by omega))
  have hsplit : ∀ u : List α, u = u.take start ++ ((u.drop start).take (stop - start)
      ++ u.drop stop) := by
    intro u
    conv_lhs => rw [← List.take_append_drop start u]
    congr 1
    conv_lhs => rw [← List.take_append_drop (stop - start) (u.drop start)]
    congr 1
    rw [List.drop_drop]
    congr 1
    omega
  have hp2 : (w.take start ++ ((w.drop start).take (stop - start) ++ w.drop stop)).Perm
      (v.take start ++ ((v.drop start).take (stop - start) ++ v.drop stop)) := by
    rw [← hsplit w, ← hsplit v]
    exact hperm
  rw [htake, hdrop] at hp2
  have hp3 := (List.perm_append_left_iff (v.take start)).mp hp2
  exact (List.perm_append_right_iff (v.drop stop)).mp hp3

/-- Witness for `shuffle_list_window_perm` on the vector `[10, 20, 30]`
with window `[1, 3)` and seed 1. -/
theorem shuffle_list_window_perm_witness :
    (1 : Nat) < 3 ∧ 3 ≤ ([10, 20, 30] : List Nat).length
    ∧ (shuffle_list false 1 ([10, 20, 30] : List Nat) 1 3).1.length = 3
    ∧ (((shuffle_list false 1 ([10, 20, 30] : List Nat) 1 3).1.drop 1).take 2).Perm
        ((([10, 20, 30] : List Nat).drop 1).take 2)
    ∧ (shuffle_list true 5 ([10, 20, 30] : List Nat) 1 3 = ([10, 20, 30], 5)) := by
  have hthm := shuffle_list_window_perm ([10, 20, 30] : List Nat) 1 1 3
    (by decide) (by decide)
  exact ⟨by decide, by decide, hthm.1, hthm.2.2.1, hthm.2.2.2 5⟩


/-- C3: on a window of `k` elements with pairwise-distinct externally
supplied ranks (`std::sort`'s tie order is unspecified, so ties are
excluded), the ranks overload of `shuffle_list` places the window in the
order of its input indices sorted ascending by rank: there is a unique
index list `p`, a permutation of `0..k-1` strictly ascending by rank,
and the output window is exactly the input window read in that order;
positions outside the window are untouched. -/
theorem shuffle_list_ranks_sorts {α : Type} [Inhabited α] (v : List α) (ranks : List ℚ)
    (start stop : Nat) (h1 : start ≤ stop) (h2 : stop ≤ v.length)
    (hdist : ∀ i j, i < stop - start → j < stop - start → i ≠ j →
      ranks.getD i 0 ≠ ranks.getD j 0) :
    ∃ p : List Nat,
      p.Perm (List.range (stop - start))
      ∧ p.Pairwise (fun i j => ranks.getD i 0 < ranks.getD j 0)
      ∧ ((shuffle_list_ranks v start stop ranks).drop start).take (stop - start)
          = p.map (fun i => v.getD (start + i) default)
      ∧ (shuffle_list_ranks v start stop ranks).length = v.length
      ∧ (∀ k, k < start ∨ stop ≤ k → (shuffle_list_ranks v start stop ranks)[k]? = v[k]?)
      ∧ (∀ q : List Nat, q.Perm (List.range (stop - start))
          → q.Pairwise (fun i j => ranks.getD i 0 < ranks.getD j 0) → q = p) := by
  set n := stop - start with hn
  set r := fun i j : Nat => ranks.getD i 0 < ranks.getD j 0 with hr
  set p := List.insertionSort r (List.range n) with hp
  have hperm : p.Perm (List.range n) := List.perm_insertionSort r (List.range n)
  have hplen : p.length = n := by
    rw [hp, List.length_insertionSort, List.length_range]
  have hS : p.Pairwise (fun i j => ranks.getD i 0 ≤ ranks.getD j 0) := by
    rw [hp]
    exact sorted_insertionSort_of r (fun i j => ranks.getD i 0 ≤ ranks.getD j 0)
      (fun x y z hxy hyz => le_trans hxy hyz)
      (fun x y hxy => le_of_lt hxy) (fun x y hxy => le_of_not_lt hxy) (List.range n)
  have hnd : p.Nodup := hperm.symm.nodup (List.nodup_range n)
  have hmem : ∀ i ∈ p, i < n := by
    intro i hi
    exact List.mem_range.mp (hperm.mem_iff.mp hi)
  have hstrict : p.Pairwise r := by
    apply List.Pairwise.imp_of_mem ?_ (hS.and hnd)
    intro a b ha hb hab
    exact lt_of_le_of_ne hab.1 (hdist a b (hmem a ha) (hmem b hb) hab.2)
  have hwlen : (shuffle_list_ranks v start stop ranks).length = v.length :=
    shuffle_list_ranks_length v start stop ranks
  have htemplen : (p.map (fun i => v.getD (start + i) default)).length = n := by
    rw [List.length_map, hplen]
  have hwin : ((shuffle_list_ranks v start stop ranks).drop start).take n
      = p.map (fun i => v.getD (start + i) default) := by
    have hw := writeRange_window (p.map (fun i => v.getD (start + i) default)) v start
      (by rw [htemplen]; omega)
    rw [htemplen] at hw
    exact hw
  have hout : ∀ k, k < start ∨ stop ≤ k
      → (shuffle_list_ranks v start stop ranks)[k]? = v[k]? := by
    intro k hk
    apply writeRange_getElem?_outside
    rw [htemplen]
    omega
  refine ⟨p, hperm, hstrict, hwin, hwlen, hout, ?_⟩
  intro q hqperm hqsort
  haveI : IsAntisymm Nat r := ⟨fun a b hab hba => absurd (lt_trans hab hba) (lt_irrefl _)⟩
  exact List.eq_of_perm_of_sorted (hqperm.trans hperm.symm) hqsort hstrict

/-- Witness for `shuffle_list_ranks_sorts`: the scenario of the claim —
ranks `0.9` then `0.1` for elements `A` then `B` (input order `A, B`)
gives output order `B, A`. -/
theorem shuffle_list_ranks_sorts_witness :
    ((0 : Nat) ≤ 2 ∧ 2 ≤ (["A", "B"] : List String).length
      ∧ (shuffle_list_ranks (["A", "B"] : List String) 0 2 [9/10, 1/10]).length = 2)
    ∧ shuffle_list_ranks (["A", "B"] : List String) 0 2 [9/10, 1/10] = ["B", "A"] := by
  have hthm := shuffle_list_ranks_sorts (["A", "B"] : List String) [9/10, 1/10] 0 2
    (by decide) (by decide)
    (by intro i j hi hj hne
        interval_cases i <;> interval_cases j <;> simp_all <;> norm_num)
  obtain ⟨p, hperm, hsort, hwin, hlen, hout, huniq⟩ := hthm
  refine ⟨⟨by decide, by decide, by simpa using hlen⟩, ?_⟩
  norm_num [shuffle_list_ranks, List.insertionSort, List.orderedInsert, writeRange,
    List.getD]


/-- C4 (amended): on a window of declaration/definition commands whose
`find_var` tags (computed against the current first-occurrence registry)
are pairwise distinct, `sort_declarations` replaces the window by the
unique arrangement of its elements strictly ascending by tag, leaves the
rest of the buffer unchanged, and does not change any registry value.
(The tag is `find_var`'s single-descent scan, not a full depth-first
search, and on equal tags `std::sort`'s order is decided by the node
addresses, so only the distinct-tag case is deterministic.) -/
theorem sort_declarations_sorted_by_tag (r : Registry) (v : List (Nat × Node))
    (start stop : Nat) (h1 : start ≤ stop) (h2 : stop ≤ v.length)
    (hdist : ((v.drop start).take (stop - start)).Pairwise
      (fun p q => find_var_val (regVal r) p.2 ≠ find_var_val (regVal r) q.2)) :
    ∃ W : List (Nat × Node),
      (sort_declarations r v start stop).1 = v.take start ++ (W ++ v.drop stop)
      ∧ W.Perm ((v.drop start).take (stop - start))
      ∧ W.Pairwise (fun p q => find_var_val (regVal r) p.2 < find_var_val (regVal r) q.2)
      ∧ regVal ((sort_declarations r v start stop).2) = regVal r
      ∧ ∀ W', W'.Perm ((v.drop start).take (stop - start))
          → W'.Pairwise (fun p q =>
              find_var_val (regVal r) p.2 < find_var_val (regVal r) q.2)
          → W' = W := by
  set n := stop - start with hn
  set f := regVal r with hf
  set window := (v.drop start).take n with hwin
  have hwinlen : window.length = n := by
    rw [hwin, List.length_take, List.length_drop]
    omega
  have htag := tagWindow_props r window
  set tagged := tagWindow r window with htagged
  set sorted := List.insertionSort pairLess tagged.1 with hsorted
  set W := sorted.map (fun x => x.2) with hW
  have h1' : (sort_declarations r v start stop).1 = writeRange v start W := rfl
  have h2' : (sort_declarations r v start stop).2 = tagged.2 := rfl
  have hsortedlen : sorted.length = n := by
    rw [hsorted, List.length_insertionSort, htag.1, List.length_map, hwinlen]
  have hWlen : W.length = n := by
    rw [hW, List.length_map, hsortedlen]
  have hdecomp : (sort_declarations r v start stop).1
      = v.take start ++ (W ++ v.drop stop) := by
    rw [h1', writeRange_decomp W v start (by rw [hWlen]; omega), hWlen]
    have hstop : start + n = stop := by omega
    rw [hstop]
  have hpermsorted : sorted.Perm tagged.1 := List.perm_insertionSort pairLess tagged.1
  have hWperm : W.Perm window := by
    rw [hW]
    have h := hpermsorted.map (fun x : Nat × Nat × Node => x.2)
    rw [htag.1, List.map_map] at h
    have hcomp : ((fun x : Nat × Nat × Node => x.2)
        ∘ fun p : Nat × Node => (find_var_val f p.2, p)) = id := rfl
    rw [hcomp, List.map_id] at h
    exact h
  have hmemtag : ∀ x ∈ sorted, x.1 = find_var_val f x.2.2 := by
    intro x hx
    have hx' : x ∈ tagged.1 := hpermsorted.mem_iff.mp hx
    rw [htag.1] at hx'
    obtain ⟨p, hp, hpx⟩ := List.mem_map.mp hx'
    rw [← hpx]
  have hSle : sorted.Pairwise (fun x y : Nat × Nat × Node => x.1 ≤ y.1) := by
    rw [hsorted]
    exact sorted_insertionSort_of pairLess (fun x y => x.1 ≤ y.1)
      (fun x y z hxy hyz => le_trans hxy hyz)
      (fun x y h => by
        rcases h with h | ⟨h, _⟩
        · exact le_of_lt h
        · exact le_of_eq h)
      (fun x y h => le_of_not_lt (fun hlt => h (Or.inl hlt)))
      tagged.1
  have hneq : sorted.Pairwise (fun x y : Nat × Nat × Node =>
      find_var_val f x.2.2 ≠ find_var_val f y.2.2) := by
    rw [hpermsorted.pairwise_iff (fun h => h.symm), htag.1, List.pairwise_map]
    exact hdist
  have hstrict : sorted.Pairwise (fun x y : Nat × Nat × Node =>
      find_var_val f x.2.2 < find_var_val f y.2.2) := by
    apply List.Pairwise.imp_of_mem ?_ (hSle.and hneq)
    intro a b ha hb hab
    have ha1 := hmemtag a ha
    have hb1 := hmemtag b hb
    rw [ha1, hb1] at hab
    exact lt_of_le_of_ne hab.1 hab.2
  have hWpair : W.Pairwise (fun p q : Nat × Node =>
      find_var_val f p.2 < find_var_val f q.2) := by
    rw [hW, List.pairwise_map]
    exact hstrict
  refine ⟨W, hdecomp, hWperm, hWpair, ?_, ?_⟩
  · rw [h2']
    exact htag.2
  · intro W' hp' hs'
    haveI : IsAntisymm (Nat × Node)
        (fun p q => find_var_val f p.2 < find_var_val f q.2) :=
      ⟨fun a b hab hba => absurd (lt_trans hab hba) (lt_irrefl _)⟩
    exact List.eq_of_perm_of_sorted (hp'.trans hWperm.symm) hs' hWpair


/-- C4 counterexample: the claim's tag is "the first referenced
declared-name descendant found by depth-first traversal", but
`find_var`'s second loop returns from its first executed iteration, so a
name nested in a *later* child is never found.  With the registry
mapping `x` to 2 and `y` to 1, the command
`(define-fun (Int) (( x)))` has claim-tag 2 (the DFS finds `x`) yet
code-tag 0 (the scan descends only into the first child `Int`), while
`(declare-fun y)` has tag 1 in both; the claimed (stably sorted) output
order and the code's output order differ. -/
theorem sort_declarations_ne_spec :
    ((sort_declarations (⟨[("x", 2), ("y", 1)], 3⟩ : Registry)
        [(0, Node.mk "define-fun" false true
            [Node.mk "Int" false false [],
             Node.mk "" false true [Node.mk "x" true false []]]),
         (1, Node.mk "declare-fun" false true [Node.mk "y" true false []])] 0 2).1.map
        (fun p => p.2.symbol))
      ≠ (sort_declarations_spec (regVal (⟨[("x", 2), ("y", 1)], 3⟩ : Registry))
          [Node.mk "define-fun" false true
            [Node.mk "Int" false false [],
             Node.mk "" false true [Node.mk "x" true false []]],
           Node.mk "declare-fun" false true [Node.mk "y" true false []]]).map
          Node.symbol := by
  decide

/-- Witness for `sort_declarations_sorted_by_tag`: two declarations with
distinct tags (`y` registered as 1, `x` as 2) are put into ascending tag
order. -/
theorem sort_declarations_sorted_by_tag_witness :
    ∃ W : List (Nat × Node),
      (sort_declarations (⟨[("x", 2), ("y", 1)], 3⟩ : Registry)
          [(0, Node.mk "declare-fun" false true [Node.mk "x" true false []]),
           (1, Node.mk "declare-fun" false true [Node.mk "y" true false []])] 0 2).1
        = ([(0, Node.mk "declare-fun" false true [Node.mk "x" true false []]),
            (1, Node.mk "declare-fun" false true [Node.mk "y" true false []])]
              : List (Nat × Node)).take 0
          ++ (W ++ ([(0, Node.mk "declare-fun" false true [Node.mk "x" true false []]),
            (1, Node.mk "declare-fun" false true [Node.mk "y" true false []])]
              : List (Nat × Node)).drop 2)
      ∧ W.Perm ((([(0, Node.mk "declare-fun" false true [Node.mk "x" true false []]),
            (1, Node.mk "declare-fun" false true [Node.mk "y" true false []])]
              : List (Nat × Node)).drop 0).take (2 - 0))
      ∧ W.Pairwise (fun p q =>
          find_var_val (regVal (⟨[("x", 2), ("y", 1)], 3⟩ : Registry)) p.2
            < find_var_val (regVal (⟨[("x", 2), ("y", 1)], 3⟩ : Registry)) q.2) := by
  obtain ⟨W, hdec, hperm, hpair, _, _⟩ :=
    sort_declarations_sorted_by_tag (⟨[("x", 2), ("y", 1)], 3⟩ : Registry)
      [(0, Node.mk "declare-fun" false true [Node.mk "x" true false []]),
       (1, Node.mk "declare-fun" false true [Node.mk "y" true false []])] 0 2
      (by decide) (by decide) (by decide)
  exact ⟨W, hdec, hperm, hpair⟩


theorem pcl_true_iff (cs : List Char) (acc : List String) :
    (parse_core_list acc cs).1 = true ↔ ∃ t ∈ tokensOf cs, t.back = ')' := by
  rw [parse_core_list.eq_def]
  rw [tokensOf.eq_def]
  cases hr : readToken cs with
  | none => simp
  | some tr =>
    obtain ⟨t, rest⟩ := tr
    by_cases hb : t.back = ')'
    · simp [hb]
    · have ih := pcl_true_iff rest (acc ++ [t])
      simp [hb, ih]
termination_by cs.length
decreasing_by exact readToken_shrink hr

/-- C9 (amended): `parse_core` accepts exactly when the first token is
the literal `unsat`, only whitespace precedes the opening `(`, and some
later whitespace-delimited token ends with the closing delimiter `)`;
everything after that token is ignored, and end of input before it (an
unterminated list), a non-`unsat` first token, or a stray character
before `(` are each rejected. -/
theorem parse_core_accepts_iff (cs : List Char) :
    (parse_core cs).1 = true
      ↔ ∃ rest rest', readToken cs = some ("unsat", rest)
          ∧ scanToParen rest = some rest'
          ∧ ∃ t ∈ tokensOf rest', t.back = ')' := by
  unfold parse_core
  cases hr : readToken cs with
  | none => simp
  | some tr =>
    obtain ⟨name, rest⟩ := tr
    by_cases hn : name = "unsat"
    · subst hn
      simp only [ne_eq, not_true_eq_false, if_false, Option.some.injEq, Prod.mk.injEq]
      cases hs : scanToParen rest with
      | none =>
        constructor
        · intro h
          simp at h
        · rintro ⟨r0, r0', ⟨-, heq2⟩, heq3, -⟩
          subst heq2
          rw [hs] at heq3
          cases heq3
      | some rest' =>
        rw [pcl_true_iff rest' []]
        constructor
        · intro h
          exact ⟨rest, rest', ⟨trivial, rfl⟩, hs, h⟩
        · rintro ⟨r0, r0', ⟨-, heq2⟩, heq3, h⟩
          subst heq2
          rw [hs] at heq3
          injection heq3 with heq4
          subst heq4
          exact h
    · simp [hn]


/-- C9 counterexample: the input `unsat (a) b` is *not* of the claimed
shape (the list is followed by a stray token `b`, so the input does not
consist of `unsat` plus a parenthesized name list), yet `parse_core`
accepts it: the loop returns success at the first token ending in `)`
and never looks at the rest of the stream. -/
theorem parse_core_accepts_trailing :
    (parse_core ['u', 'n', 's', 'a', 't', ' ', '(', 'a', ')', ' ', 'b']).1 = true
    ∧ parse_core_strict ['u', 'n', 's', 'a', 't', ' ', '(', 'a', ')', ' ', 'b']
        = false := by
  have h1 : readToken ['u', 'n', 's', 'a', 't', ' ', '(', 'a', ')', ' ', 'b']
      = some ("unsat", [' ', '(', 'a', ')', ' ', 'b']) := by decide
  have h2 : scanToParen [' ', '(', 'a', ')', ' ', 'b'] = some ['a', ')', ' ', 'b'] := by
    decide
  have h3 : readToken ['a', ')', ' ', 'b'] = some ("a)", [' ', 'b']) := by decide
  have h4 : parse_core_list [] ['a', ')', ' ', 'b'] = (true, ["a"]) := by
    rw [parse_core_list.eq_def]
    split
    · rename_i heq
      rw [h3] at heq
      cases heq
    · rename_i t rest heq
      rw [h3] at heq
      cases heq
      decide
  have h5 : parse_core_strict_list ['a', ')', ' ', 'b'] = false := by
    rw [parse_core_strict_list.eq_def]
    split
    · rename_i heq
      rw [h3] at heq
    · rename_i t rest heq
      rw [h3] at heq
      cases heq
      decide
  constructor
  · unfold parse_core
    rw [h1]
    simp only [ne_eq, not_true_eq_false, if_false, h2, h4]
  · unfold parse_core_strict
    rw [h1]
    simp only [ne_eq, not_true_eq_false, if_false, h2, h5]

end Scrambler
